import Mathlib

/-!
Verification of the dockerfile-generator repository (two source variants:
`dockerfile-generator-g2.py`, the current generator, and
`dockerfile-generator.py`, the legacy generator).

The Python code is shallowly embedded: strings are Lean `String`s (reasoned
about through their `List Char` data), Python dicts that the code only reads
through `.get` are association lists, logging side effects (warnings, errors)
are returned explicitly, and the two filesystem probes (`find_folder`,
`glob.glob`) are oracle parameters.  Loops that Python may not exit
(`substitute_env_variables_deep`) take an explicit fuel and return `Option`.
-/

namespace DFGen

/-- Python's `str.startswith`. -/
def strStartsWith (s p : String) : Bool := p.data.isPrefixOf s.data

/-- Python's `s[n:]`. -/
def strDropN (s : String) (n : Nat) : String := ⟨s.data.drop n⟩

/-- Python's `s[:-1]`. -/
def strDropLast (s : String) : String := ⟨s.data.dropLast⟩

/-- Python's `s.replace(pat, rep)` (all non-overlapping occurrences, left to
right), with structural fuel; one unit of fuel is spent per character of `s`,
so `fuel = s.length` always suffices (`pyReplaceL` below).  The sources only
ever call it with the nonempty pattern `"${" + name + "}"`, so the
empty-pattern case never arises; the guard keeps the function total. -/
def pyReplaceFuel (pat rep : List Char) : Nat → List Char → List Char
  | _, [] => []
  | 0, s => s
  | n + 1, c :: cs =>
    if pat ≠ [] ∧ pat.isPrefixOf (c :: cs) then
      rep ++ pyReplaceFuel pat rep n (List.drop (pat.length - 1) cs)
    else
      c :: pyReplaceFuel pat rep n cs

/-- Python's `s.replace(pat, rep)` on char lists. -/
def pyReplaceL (pat rep s : List Char) : List Char := pyReplaceFuel pat rep s.length s

/-- The `pyReplace s pat rep` is Python's `s.replace(pat, rep)` on `String`. -/
def pyReplace (s pat rep : String) : String := ⟨pyReplaceL pat.data rep.data s.data⟩

/-- Python's `s.split(sep)` for a one-character separator, on char lists. -/
def splitCh (sep : Char) : List Char → List (List Char)
  | [] => [[]]
  | c :: cs =>
    match splitCh sep cs with
    | [] => [[c]]
    | w :: ws => if c = sep then [] :: w :: ws else (c :: w) :: ws

/-- Python's `s.split(sep)` for a one-character separator. -/
def pySplit (sep : Char) (s : String) : List String :=
  (splitCh sep s.data).map (fun l => ⟨l⟩)

/-- Python's `s.split(" ", 1)[1]`: everything after the first space.  Only
called behind a `startswith("comment ")` guard, so a space always exists. -/
def afterFirstSpace (s : String) : String :=
  ⟨(s.data.dropWhile (fun c => !(c == ' '))).drop 1⟩

/-- True on the characters Python's regex `\S` rejects (`str.isspace`). -/
def pyIsWs (c : Char) : Bool :=
  (c == ' ') || (c == '\t') || (c == '\n') || (c == '\r') || (c == '\x0b') || (c == '\x0c')

/-- Python's regex `.` (anything but a newline). -/
def pyDotNoNl (c : Char) : Bool := !(c == '\n')

/-- Try `k n`, `k (n-1)`, ..., `k 1`, returning the first success: the
backtracking order of a greedy `+` repetition. -/
def firstSome (k : Nat → Option α) : Nat → Option α
  | 0 => none
  | n + 1 =>
    match k (n + 1) with
    | some r => some r
    | none => firstSome k n

/-- Greedy `(C)+` for a character class `p`: pass each candidate consumed
prefix (longest first, at least one character) to the continuation. -/
def plusGreedy (p : Char → Bool) (s : List Char) (k : List Char → List Char → Option α) :
    Option α :=
  firstSome (fun i => k (s.take i) (s.drop i)) (s.takeWhile p).length

/-- The quoted-pair regex matcher (first pattern of the splitters),
returning the two groups. -/
def matchQuotedPair (s : List Char) : Option (List Char × List Char) :=
  match s with
  | '"' :: t =>
    plusGreedy pyDotNoNl t (fun g1 rest =>
      match rest with
      | '"' :: u =>
        plusGreedy (fun c => c == ' ') u (fun _ rest2 =>
          match rest2 with
          | '"' :: v =>
            plusGreedy pyDotNoNl v (fun g2 rest3 =>
              match rest3 with
              | '"' :: _ => some (g1, g2)
              | _ => none)
          | _ => none)
      | _ => none)
  | _ => none

/-- The two-token regex matcher (second pattern of the splitters),
returning the two groups. -/
def matchTwoTokens (s : List Char) : Option (List Char × List Char) :=
  plusGreedy (fun c => !pyIsWs c) s (fun g1 rest =>
    plusGreedy (fun c => c == ' ') rest (fun _ rest2 =>
      plusGreedy (fun c => !pyIsWs c) rest2 (fun g2 _ => some (g1, g2))))

/-- The `split_env_definition`: try the quoted-pair pattern, then the two-token
pattern; fall back to `(s, "")`. -/
def split_env_definition (s : String) : String × String :=
  match matchQuotedPair s.data with
  | some (a, b) => (⟨a⟩, ⟨b⟩)
  | none =>
    match matchTwoTokens s.data with
    | some (a, b) => (⟨a⟩, ⟨b⟩)
    | none => (s, "")

/-- The `split_file_paths`: same patterns, but the fallback is `(None, None)`. -/
def split_file_paths (s : String) : Option (String × String) :=
  match matchQuotedPair s.data with
  | some (a, b) => some (⟨a⟩, ⟨b⟩)
  | none =>
    match matchTwoTokens s.data with
    | some (a, b) => some (⟨a⟩, ⟨b⟩)
    | none => none

/-- The Macro Table: `macros.get(key, None)` over an association list. -/
def macroGet : List (String × List String) → String → Option (List String)
  | [], _ => none
  | (k, v) :: t, key => if k = key then some v else macroGet t key

/-- The `looks_like_macro` (g2): `len(token) > 1`, starts with `$`, does not
start with `${`; also returns `token[1:]`. -/
def looks_like_macro (token : String) : Bool × String :=
  (decide (1 < token.data.length) && strStartsWith token "$"
      && !strStartsWith token "$\x7b",
    strDropN token 1)

/-- The `match_macro` (g2).  Returns `(res, words, warned)`: `res` is Python's
first component, `words` the second, `warned` records the
"Macro not found" log call.  Note Python's `if macro:` also treats a macro
bound to an empty list as not found. -/
def match_macro (macros : List (String × List String)) (token : String) :
    Bool × List String × Bool :=
  let lk := looks_like_macro token
  if lk.1 then
    match macroGet macros lk.2 with
    | some m => if m.isEmpty then (false, [token], true) else (true, m, false)
    | none => (false, [token], true)
  else (false, [token], false)

/-- The `process_macro` (legacy).  Returns `(words, warned)`.  The guard is
`len(token) > 2 and token[0] == '$' and token[1] != '{'`. -/
def process_macro (macros : List (String × List String)) (token : String) :
    List String × Bool :=
  match token.data with
  | c0 :: c1 :: _ :: _ =>
    if c0 = '$' ∧ c1 ≠ '\x7b' then
      match macroGet macros (strDropN token 1) with
      | some m => if m.isEmpty then ([token], true) else (m, false)
      | none => ([token], true)
    else ([token], false)
  | _ => ([token], false)

/-- The `EnvironmentVariable` namedtuple.  `name`/`value` are `Option` because
`split_file_paths` can produce Python `None` for both (the `env_ext`
generator stores them as-is). -/
structure EnvironmentVariable where
  name : Option String
  value : Option String
  help : List String
  publish : Bool
deriving DecidableEq

/-- The `ExposedPort` namedtuple. -/
structure ExposedPort where
  port : String
  protocol : String
deriving DecidableEq

/-- The `VolumeDefinitions` namedtuple. -/
structure VolumeDefinitions where
  src : String
  dst : String
  abs_path : String
deriving DecidableEq

/-- The `GeneratedFile` namedtuple. -/
structure GeneratedFile where
  filename : String
  help : List String
  publish : Bool
deriving DecidableEq

/-- Python's string formatting of an optional string (`None` prints as
`"None"`). -/
def pyStrOfOpt : Option String → String
  | none => "None"
  | some s => s

/-- Python truthiness of an optional string (`None` and `""` are falsy). -/
def pyTruthy : Option String → Bool
  | none => false
  | some s => !(s == "")

/-- The loop body of `substitute_env_variables`: fold the remaining
variables over the `(replaced, s)` pair.  A variable whose stored value is
Python `None` makes `string.replace` raise, modeled as `none`. -/
def substOnceAux : List (Option String × EnvironmentVariable) → Bool → String →
    Option (Bool × String)
  | [], b, s => some (b, s)
  | kv :: rest, b, s =>
    match kv.2.value with
    | none => none
    | some v =>
      let s' := pyReplace s ("$\x7b" ++ pyStrOfOpt kv.1 ++ "\x7d") v
      substOnceAux rest (b || (s != s')) s'

/-- One pass of `substitute_env_variables`: for each accumulated variable
replace `${NAME}` by its value, reporting whether anything changed. -/
def substOncePy (envs : List (Option String × EnvironmentVariable)) (s : String) :
    Option (Bool × String) :=
  substOnceAux envs false s

/-- The `substitute_env_variables_deep`: loop `substOncePy` until a pass reports
no change.  The Python loop has no bound, so the embedding takes fuel and
returns `none` when the fuel runs out (or a pass raised). -/
def substDeepPy (envs : List (Option String × EnvironmentVariable)) :
    Nat → String → Option String
  | 0, _ => none
  | n + 1, s =>
    match substOncePy envs s with
    | none => none
    | some (changed, s') => if changed then substDeepPy envs n s' else some s'

/-- An `env_ext` entry: `{definition, help?, publish?}` (help already put
through `convert_to_list`). -/
structure EnvExtEntry where
  definition : String
  help : List String
  publish : Bool
deriving DecidableEq

/-- A `files`/`shells` entry: `{filename, help?, publish?, lines}`. -/
structure FileSpec where
  filename : String
  help : List String
  publish : Bool
  lines : List String
deriving DecidableEq

/-- One Section: the bag of optional directive fields read by the
generators.  Every generator guards with Python falsiness (`if not x`), so a
missing key and an empty list are indistinguishable; both are `[]`. -/
structure SectionCfg where
  expose : List String := []
  env : List String := []
  env_ext : List EnvExtEntry := []
  volumes : List String := []
  copy : List String := []
  copy_f : List String := []
  shells : List FileSpec := []
  install : List String := []
  files : List FileSpec := []
  run : List String := []
deriving DecidableEq

/-- The per-definition flags the section generators read from
`dockerfile_config` (`packager` defaulted to `"rpm"` by `.get`). -/
structure DockerfileConfig where
  packager : String
  build_trace_disable : Bool
deriving DecidableEq

/-- The Accumulated State mutated by the generators, with the logging side
effects made explicit. -/
structure GenState where
  ports : List ExposedPort
  envVars : List (Option String × EnvironmentVariable)
  volumes : List VolumeDefinitions
  shells : List GeneratedFile
  warning_folder_does_not_exist : Bool
  warnings : List String
  errors : List String
deriving DecidableEq

/-- The fresh Accumulated State of a definition. -/
def emptyGenState : GenState := ⟨[], [], [], [], false, [], []⟩

/-- Python `d[k] = v` on an insertion-ordered association list: overwrite in
place, else append. -/
def assocSet (k : Option String) (v : EnvironmentVariable) :
    List (Option String × EnvironmentVariable) → List (Option String × EnvironmentVariable)
  | [] => [(k, v)]
  | (k', v') :: t => if k' = k then (k, v) :: t else (k', v') :: assocSet k v t

/-- Read-only context shared by the generators: the Macro Table, the
definition's flags, the two filesystem probes (oracles for `find_folder` and
`glob.glob`), the configuration-file folder and name, and the substitution
fuel. -/
structure GenParams where
  macros : List (String × List String)
  config : DockerfileConfig
  fsFind : String → Option String
  globEx : String → Bool
  confFolder : String
  name : String
  fuel : Nat

/-- The `generate_section_separator`. -/
def generate_section_separator : String := "\n"

/-- The `generate_command_chain` applied to an accumulator: `(first, out)` turns
into `(False, out + command)` or `(False, out + lead + command)`. -/
def chainStep (lead : String) (acc : Bool × String) (command : String) : Bool × String :=
  (false, acc.2 ++ (if acc.1 then command else lead ++ command))

/-- The `os.path.basename` (POSIX): everything after the last `/`. -/
def pyBasename (s : String) : String :=
  ⟨(s.data.reverse.takeWhile (fun c => !(c == '/'))).reverse⟩

/-- The `os.path.dirname` (POSIX). -/
def pyDirname (p : String) : String :=
  let head := (p.data.reverse.dropWhile (fun c => !(c == '/'))).reverse
  if head.all (fun c => c == '/') then ⟨head⟩
  else ⟨(head.reverse.dropWhile (fun c => c == '/')).reverse⟩

/-- The `os.path.join` for two POSIX components. -/
def pyPathJoin (a b : String) : String :=
  if strStartsWith b "/" then b
  else if a = "" then b
  else if a.data.getLast? = some '/' then a ++ b
  else a ++ "/" ++ b

/-- The `replace_home`: substitute the home folder prefix by `$HOME`. -/
def replace_home (home s : String) : String :=
  if strStartsWith s home then pyReplace s home "$HOME" else s

/-- The `__generate_dockerfile_expose` (g2): emit one `EXPOSE` directive, bare
port for TCP entries, `port/protocol` otherwise, recording every entry. -/
def genExpose (sec : SectionCfg) (st : GenState) : Bool × String × GenState :=
  if sec.expose.isEmpty then (false, "", st)
  else
    let r := sec.expose.foldl
      (fun (acc : String × List ExposedPort) port =>
        match pySplit '/' port with
        | [p] => (acc.1 ++ " " ++ p, acc.2 ++ [⟨p, "TCP"⟩])
        | p :: proto :: _ =>
          (acc.1 ++ (if proto = "TCP" then " " ++ p else " " ++ port), acc.2 ++ [⟨p, proto⟩])
        | [] => acc)
      ("\nEXPOSE", st.ports)
    (true, r.1, { st with ports := r.2 })

/-- The `__generate_dockerfile_env` (g2): macro-expand each entry, emit
`ENV <entry>`, record `(name, value, "", publish=False)`. -/
def genEnv (macros : List (String × List String)) (sec : SectionCfg) (st : GenState) :
    Bool × String × GenState :=
  if sec.env.isEmpty then (false, "", st)
  else
    let r := sec.env.foldl
      (fun (acc : String × List (Option String × EnvironmentVariable)) ev =>
        let mm := match_macro macros ev
        mm.2.1.foldl
          (fun (acc2 : String × List (Option String × EnvironmentVariable)) w =>
            let nv := split_env_definition w
            (acc2.1 ++ "\nENV " ++ w,
             assocSet (some nv.1) ⟨some nv.1, some nv.2, [], false⟩ acc2.2))
          acc)
      ("", st.envVars)
    (true, r.1, { st with envVars := r.2 })

/-- The `__generate_dockerfile_env_extended` (g2): help lines as comments, then
`ENV <definition>`, recording `(name, value, help, publish)` where the name
and value come from `split_file_paths` (both Python `None` on no match). -/
def genEnvExtended (sec : SectionCfg) (st : GenState) : Bool × String × GenState :=
  if sec.env_ext.isEmpty then (false, "", st)
  else
    let r := sec.env_ext.foldl
      (fun (acc : String × List (Option String × EnvironmentVariable)) ev =>
        let helpPart := ev.help.foldl (fun a line => a ++ "\n# " ++ line) ""
        let nv := split_file_paths ev.definition
        let name := nv.map Prod.fst
        let value := nv.map Prod.snd
        (acc.1 ++ helpPart ++ "\nENV " ++ ev.definition ++ "\n",
         assocSet name ⟨name, value, ev.help, ev.publish⟩ acc.2))
      ("", st.envVars)
    (true, r.1, { st with envVars := r.2 })

/-- The `__generate_dockerfile_volume` (g2): one combined `VOLUME` directive over
the deep-substituted destinations; each source resolved through the
`find_folder` oracle (falling back to the literal source with a warning);
records a `VolumeDefinitions` entry per mount.  An entry that
`split_file_paths` cannot parse makes the Python code operate on `None`
values, modeled as failure (`none`). -/
def genVolume (P : GenParams) (sec : SectionCfg) (st : GenState) :
    Option (Bool × String × GenState) :=
  if sec.volumes.isEmpty then some (false, "", st)
  else do
    let r ← sec.volumes.foldlM
      (fun (acc : String × GenState) volume => do
        let sd ← split_file_paths volume
        let dst ← substDeepPy st.envVars P.fuel sd.2
        let src := sd.1
        let cmd := acc.1 ++ " \"" ++ dst ++ "\","
        let src_abs := (P.fsFind src).getD src
        let st' :=
          { acc.2 with
            volumes := acc.2.volumes ++ [⟨src, dst, src_abs⟩],
            warnings :=
              if src_abs = src then
                acc.2.warnings ++ ["I did not find folder " ++ src ++ " in your home directory"]
              else acc.2.warnings }
        pure (cmd, st'))
      ("\nVOLUME [", st)
    some (true, strDropLast r.1 ++ " ]", r.2)

/-- The `__generate_dockerfile_copy_do` (g2): macro-expand each entry, split into
`src dst`, emit one `COPY` per parsed pair; for the checked variant warn once
per definition when the `glob` oracle finds neither candidate path. -/
def genCopyDo (P : GenParams) (skipCheck : Bool) (files : List String) (st : GenState) :
    Bool × String × GenState :=
  if files.isEmpty then (false, "", st)
  else
    let r := files.foldl
      (fun (acc : String × GenState) file =>
        let mm := match_macro P.macros file
        mm.2.1.foldl
          (fun (acc2 : String × GenState) w =>
            match split_file_paths w with
            | some (src, dst) =>
              let out := acc2.1 ++ "\nCOPY \"" ++ src ++ "\" \"" ++ dst ++ "\""
              let full1 := pyPathJoin P.confFolder (pyBasename src)
              let full2 := pyPathJoin P.confFolder src
              if !P.globEx full1 && !P.globEx full2
                  && !acc2.2.warning_folder_does_not_exist && !skipCheck then
                (out,
                 { acc2.2 with
                   warning_folder_does_not_exist := true,
                   warnings := acc2.2.warnings ++
                     ["Path " ++ src ++ " does not exist in the folder " ++ P.confFolder ++
                       " in the container " ++ P.name] })
              else (out, acc2.2)
            | none =>
              (acc2.1,
               { acc2.2 with
                 warnings := acc2.2.warnings ++ ["Faled to parse COPY arguments " ++ w] }))
          acc)
      ("", st)
    (true, r.1, r.2)

/-- The `__generate_file` (g2): one combined `RUN` per collection — mkdir for the
(deep-substituted) file path, `echo` the help lines, then append each
macro-expanded line (`comment `-prefixed lines become backquoted
commentary); optionally `chmod +x`; the shell variant records the file. -/
def genFileDo (P : GenParams) (specs : List FileSpec) (setExecutable : Bool)
    (record : Bool) (st : GenState) : Option (Bool × String × GenState) :=
  if specs.isEmpty then some (false, "", st)
  else do
    let header :=
      if P.config.build_trace_disable then "\nRUN "
      else "\nRUN `# Generate files` && set -x && "
    let lead := " && \\\n\t"
    let r ← specs.foldlM
      (fun (acc : (Bool × String) × GenState) spec => do
        let filename_env ← substDeepPy st.envVars P.fuel spec.filename
        let dirname := pyDirname filename_env
        let st1 :=
          if record then
            { acc.2 with shells := acc.2.shells ++ [⟨spec.filename, spec.help, spec.publish⟩] }
          else acc.2
        let c0 :=
          if P.config.build_trace_disable then "mkdir -p \"" ++ dirname ++ "\""
          else "`# Generating " ++ spec.filename ++ "` mkdir -p \"" ++ dirname ++ "\""
        let a1 := chainStep lead acc.1 c0
        let a2 := spec.help.foldl
          (fun a line =>
            chainStep lead a ("echo -e \"# " ++ line ++ "\\n\" > " ++ spec.filename))
          a1
        let a3 := spec.lines.foldl
          (fun a line =>
            let mm := match_macro P.macros line
            mm.2.1.foldl
              (fun a2 w =>
                if strStartsWith w "comment " then
                  chainStep lead a2 ("`# " ++ afterFirstSpace w ++ "`")
                else
                  chainStep lead a2 ("echo \"" ++ w ++ "\" >> " ++ spec.filename))
              a)
          a2
        let a4 := if setExecutable then chainStep lead a3 ("chmod +x " ++ spec.filename) else a3
        pure (a4, st1))
      ((true, header), st)
    some (true, r.1.2, r.2)

/-- The `__generate_dockerfile_packages_rpm` (g2): one combined `yum install`
over all macro-expanded packages, then cache cleanup. -/
def genPackagesRpm (macros : List (String × List String)) (build_trace_disable : Bool)
    (sec : SectionCfg) : Bool × String :=
  if sec.install.isEmpty then (false, "")
  else
    let header :=
      if build_trace_disable then "\nRUN "
      else "\nRUN `# Install packages` && set -x && "
    let body := sec.install.foldl
      (fun acc package =>
        let mm := match_macro macros package
        mm.2.1.foldl (fun a w => a ++ " " ++ w) acc)
      (header ++ " \\\n\tyum -y -v install")
    (true, body ++ " && \\\n\tyum clean all && yum -y clean packages")

/-- The `__generate_dockerfile_packages_deb` (g2): `apt-get update`, one combined
`apt-get install` over all macro-expanded packages, then clean. -/
def genPackagesDeb (macros : List (String × List String)) (build_trace_disable : Bool)
    (sec : SectionCfg) : Bool × String :=
  if sec.install.isEmpty then (false, "")
  else
    let header :=
      if build_trace_disable then "\nRUN "
      else "\nRUN `# Install packages` && set -x &&"
    let body := sec.install.foldl
      (fun acc package =>
        let mm := match_macro macros package
        mm.2.1.foldl (fun a w => a ++ " " ++ w) acc)
      (header ++ " \\\n\tapt-get update && \\\n\tapt-get -y install")
    (true, body ++ " && \\\n\tapt-get -y clean")

/-- The `__generate_dockerfile_packages` (g2): dispatch on `packager`; an unknown
backend logs one error and produces nothing. -/
def genPackages (P : GenParams) (sec : SectionCfg) (st : GenState) :
    Bool × String × GenState :=
  if P.config.packager = "deb" then
    let r := genPackagesDeb P.macros P.config.build_trace_disable sec
    (r.1, r.2, st)
  else if P.config.packager = "rpm" then
    let r := genPackagesRpm P.macros P.config.build_trace_disable sec
    (r.1, r.2, st)
  else
    (false, "", { st with errors := st.errors ++ ["Unknown packager \x27" ++ P.config.packager ++ "\x27"] })

/-- The `__generate_dockerfile_run` (g2): one combined command chain; a
`comment X` token becomes backquoted commentary; a token that expands as a
macro is preceded by a backquoted trace comment when build-trace is on. -/
def genRunG2 (macros : List (String × List String)) (build_trace_disable : Bool)
    (sec : SectionCfg) : Bool × String :=
  if sec.run.isEmpty then (false, "")
  else
    let header :=
      if build_trace_disable then "\nRUN "
      else "\nRUN `# Execute commands` && set -x && "
    let lead := " && \\\n\t"
    let r := sec.run.foldl
      (fun (a : Bool × String) cmd =>
        if strStartsWith cmd "comment " then
          chainStep lead a (" `# " ++ afterFirstSpace cmd ++ "`")
        else
          let mm := match_macro macros cmd
          let a1 :=
            if mm.1 && !build_trace_disable then chainStep lead a (" `# " ++ cmd ++ "`")
            else a
          mm.2.1.foldl (fun a2 w => chainStep lead a2 (" " ++ w)) a1)
      (true, header)
    (true, r.2)

/-- The `generate_dockerfile_run` (legacy): same chaining, but the trace comment
precedes every single-word token (no space in it), macro or not, and the
trace-enabled header has no trailing `&& `. -/
def legacyGenRun (macros : List (String × List String)) (build_trace_disable : Bool)
    (runCmds : List String) : Bool × String :=
  if runCmds.isEmpty then (false, "")
  else
    let header :=
      if build_trace_disable then "\nRUN "
      else "\nRUN `# Execute commands` && set -x"
    let lead := " && \\\n\t"
    let r := runCmds.foldl
      (fun (a : Bool × String) cmd =>
        if strStartsWith cmd "comment " then
          chainStep lead a (" `# " ++ afterFirstSpace cmd ++ "`")
        else
          let a1 :=
            if !(cmd.data.contains ' ') && !build_trace_disable then
              chainStep lead a (" `# " ++ cmd ++ "`")
            else a
          ( process_macro macros cmd).1.foldl (fun a2 w => chainStep lead a2 (" " ++ w)) a1)
      (true, header)
    (true, r.2)

/-- A section generator in the composer's uniform shape. -/
abbrev SectionGen := SectionCfg → GenState → Option (Bool × String × GenState)

/-- Lift a total generator into the composer's shape. -/
def liftGen (g : SectionCfg → GenState → Bool × String × GenState) : SectionGen :=
  fun sec st => some (g sec st)

/-- The fixed, ordered generator list of `__do_dockerfile_stage_section`
(g2): expose, env, env_ext, volume, copy, copy_f, shell, packages, file,
run. -/
def sectionGenerators (P : GenParams) : List SectionGen :=
  [liftGen genExpose,
   liftGen (genEnv P.macros),
   liftGen genEnvExtended,
   genVolume P,
   liftGen (fun sec st => genCopyDo P false sec.copy st),
   liftGen (fun sec st => genCopyDo P true sec.copy_f st),
   fun sec st => genFileDo P sec.shells true true st,
   liftGen (genPackages P),
   fun sec st => genFileDo P sec.files false false st,
   liftGen (fun sec st =>
     let r := genRunG2 P.macros P.config.build_trace_disable sec
     (r.1, r.2, st))]

/-- The generator loop of `__do_dockerfile_stage_section` (g2): run each
generator in order, appending its text plus one separator only when it
produced output. -/
def runGensLoop : List SectionGen → SectionCfg → GenState → String → Option (String × GenState)
  | [], _, st, acc => some (acc, st)
  | g :: gs, sec, st, acc =>
    match g sec st with
    | none => none
    | some (res, t, st') =>
      runGensLoop gs sec st' (if res then acc ++ t ++ generate_section_separator else acc)

/-- The Section Composer: the generator loop started on the empty output. -/
def composeSection (P : GenParams) (sec : SectionCfg) (st : GenState) :
    Option (String × GenState) :=
  runGensLoop (sectionGenerators P) sec st ""

/-- The `__generate_header` (g2): `FROM <base> as <name>` for a (truthy) stage
name, `FROM <base>` otherwise; `base` defaults to `centos:centos7`. -/
def g2GenerateHeader (base? : Option String) (stage_name : Option String) : String :=
  let base := base?.getD "centos:centos7"
  if pyTruthy stage_name then "\nFROM " ++ base ++ " as " ++ pyStrOfOpt stage_name
  else "\nFROM " ++ base

/-- The `generate_header` (legacy): a generated-from comment, then always
`FROM <base> as <name>` — the stage name is interpolated even when it is
Python `None`. -/
def legacyGenerateHeader (config_file_abspath base : String) (stage_name : Option String) :
    Bool × String :=
  (true,
   "\n# Automatically generated from " ++ config_file_abspath ++
     "\nFROM " ++ base ++ " as " ++ pyStrOfOpt stage_name)

/-- The `get_user_help_env` (g2): `-e "NAME=VALUE"` (or bare `-e NAME` when the
value is falsy) for every published variable. -/
def getUserHelpEnv (envVars : List (Option String × EnvironmentVariable)) : String :=
  envVars.foldl
    (fun acc kv =>
      if kv.2.publish then
        match kv.2.value with
        | some v =>
          if !(v == "") then acc ++ " -e \"" ++ pyStrOfOpt kv.1 ++ "=" ++ v ++ "\""
          else acc ++ " -e " ++ pyStrOfOpt kv.1
        | none => acc ++ " -e " ++ pyStrOfOpt kv.1
      else acc)
    ""

/-- The per-stage ports help of `get_user_help_commands` (g2):
`-p PORT:PORT/PROTOCOL` per recorded port. -/
def portsHelpStr (ports : List ExposedPort) : String :=
  ports.foldl (fun acc p => acc ++ " -p " ++ p.port ++ ":" ++ p.port ++ "/" ++ p.protocol) ""

/-- A `{stage_name: stage_config}` record as consumed by
`get_user_help_commands` (only the name and the collected volumes are
read). -/
structure StageRecord where
  name : Option String
  volumes : List VolumeDefinitions

/-- The `get_user_help_commands` (g2): the build/run example commands rendered
from the accumulated ports, volumes and published environment variables.
`dockerfile_path` is `get_dockerfile_path`'s result; `home` feeds
`replace_home`. -/
def getUserHelpCommands (dockerfile_name dockerfile_path home : String)
    (ports : List ExposedPort) (envVars : List (Option String × EnvironmentVariable))
    (stages : List StageRecord) : String :=
  let header := "  # Build and run the container (try to add --rm). See https://docs.docker.com/engine/reference/commandline/run\n"
  let r := stages.foldl
    (fun (acc : String × String) stage =>
      let anonymous := !pyTruthy stage.name
      let sname := if anonymous then dockerfile_name else pyStrOfOpt stage.name
      let vh0 := stage.volumes.foldl
        (fun a v => a ++ " \\\n  --volume " ++ v.abs_path ++ ":" ++ v.dst ++ " ") acc.2
      let vh := if vh0 == "" then vh0 else vh0 ++ " \\\n "
      let ph0 := portsHelpStr ports
      let ph := if ph0 == "" then ph0 else ph0 ++ " \\\n "
      let eh := getUserHelpEnv envVars
      let tag := if anonymous then sname else dockerfile_name ++ "." ++ sname
      let build :=
        if anonymous then
          "  sudo docker build --tag " ++ tag ++ ":latest --file " ++
            replace_home home dockerfile_path ++ "  .\n"
        else
          "  sudo docker build --target " ++ sname ++ " --tag " ++ tag ++ ":latest --file " ++
            replace_home home dockerfile_path ++ "  .\n"
      let run :=
        "  sudo docker run --rm --name " ++ tag ++ " --network=\x27host\x27 --init --tty --interactive" ++
          vh ++ ph ++ eh ++ " " ++ tag ++ ":latest\n"
      (acc.1 ++ build ++ run, vh))
    (header, "")
  r.1

/-- One directive field of a section as it appears in the input document,
used to state that the emitted text does not depend on the order the fields
were written in. -/
inductive SectionField where
  | expose (l : List String)
  | env (l : List String)
  | env_ext (l : List EnvExtEntry)
  | volumes (l : List String)
  | copy (l : List String)
  | copy_f (l : List String)
  | shells (l : List FileSpec)
  | install (l : List String)
  | files (l : List FileSpec)
  | run (l : List String)
deriving DecidableEq

/-- The key of an input field (two fields with the same kind would be a
duplicate YAML key). -/
def SectionField.kind : SectionField → Nat
  | .expose _ => 0
  | .env _ => 1
  | .env_ext _ => 2
  | .volumes _ => 3
  | .copy _ => 4
  | .copy_f _ => 5
  | .shells _ => 6
  | .install _ => 7
  | .files _ => 8
  | .run _ => 9

/-- The `expose` value of a field list (first occurrence). -/
def fvExpose (fs : List SectionField) : List String :=
  match fs.filter (fun f => f.kind == 0) with
  | .expose l :: _ => l
  | _ => []

/-- The `env` value of a field list. -/
def fvEnv (fs : List SectionField) : List String :=
  match fs.filter (fun f => f.kind == 1) with
  | .env l :: _ => l
  | _ => []

/-- The `env_ext` value of a field list. -/
def fvEnvExt (fs : List SectionField) : List EnvExtEntry :=
  match fs.filter (fun f => f.kind == 2) with
  | .env_ext l :: _ => l
  | _ => []

/-- The `volumes` value of a field list. -/
def fvVolumes (fs : List SectionField) : List String :=
  match fs.filter (fun f => f.kind == 3) with
  | .volumes l :: _ => l
  | _ => []

/-- The `copy` value of a field list. -/
def fvCopy (fs : List SectionField) : List String :=
  match fs.filter (fun f => f.kind == 4) with
  | .copy l :: _ => l
  | _ => []

/-- The `copy_f` value of a field list. -/
def fvCopyF (fs : List SectionField) : List String :=
  match fs.filter (fun f => f.kind == 5) with
  | .copy_f l :: _ => l
  | _ => []

/-- The `shells` value of a field list. -/
def fvShells (fs : List SectionField) : List FileSpec :=
  match fs.filter (fun f => f.kind == 6) with
  | .shells l :: _ => l
  | _ => []

/-- The `install` value of a field list. -/
def fvInstall (fs : List SectionField) : List String :=
  match fs.filter (fun f => f.kind == 7) with
  | .install l :: _ => l
  | _ => []

/-- The `files` value of a field list. -/
def fvFiles (fs : List SectionField) : List FileSpec :=
  match fs.filter (fun f => f.kind == 8) with
  | .files l :: _ => l
  | _ => []

/-- The `run` value of a field list. -/
def fvRun (fs : List SectionField) : List String :=
  match fs.filter (fun f => f.kind == 9) with
  | .run l :: _ => l
  | _ => []

/-- Build the section a field list denotes: dictionary lookup is unordered,
so only the fields' values matter. -/
def toSection (fs : List SectionField) : SectionCfg :=
  { expose := fvExpose fs
    env := fvEnv fs
    env_ext := fvEnvExt fs
    volumes := fvVolumes fs
    copy := fvCopy fs
    copy_f := fvCopyF fs
    shells := fvShells fs
    install := fvInstall fs
    files := fvFiles fs
    run := fvRun fs }

/-- The claimed shape of the composed output: for each generator in order,
its text followed by exactly one separator when it produced output, nothing
otherwise. -/
def renderPieces : List (Bool × String) → String
  | [] => ""
  | r :: rs => (if r.1 then r.2 ++ generate_section_separator else "") ++ renderPieces rs

/-- Run the generators in order, only collecting each `(produced, text)`
outcome and threading the state. -/
def collectGens : List SectionGen → SectionCfg → GenState → Option (List (Bool × String) × GenState)
  | [], _, st => some ([], st)
  | g :: gs, sec, st =>
    match g sec st with
    | none => none
    | some (res, t, st') =>
      match collectGens gs sec st' with
      | none => none
      | some (rs, st'') => some ((res, t) :: rs, st'')

/-- The `sub` occurs as a contiguous substring of `s`. -/
def containsSub (s sub : String) : Bool :=
  s.data.tails.any (fun t => sub.data.isPrefixOf t)

/-- The words a token contributes after macro expansion (g2). -/
def mmWords (macros : List (String × List String)) (token : String) : List String :=
  let mm := match_macro macros token
  mm.2.1

/-- Whether a token expanded as a macro (g2). -/
def mmHit (macros : List (String × List String)) (token : String) : Bool :=
  let mm := match_macro macros token
  mm.1

/-- The `" w1 w2 ..."`: how the package loops append words to the command. -/
def catWords : List String → String
  | [] => ""
  | w :: ws => " " ++ w ++ catWords ws

/-- All words contributed by a token list after macro expansion (g2). -/
def expandAll (macros : List (String × List String)) : List String → List String
  | [] => []
  | t :: ts => mmWords macros t ++ expandAll macros ts

/-- Fold `generate_command_chain` over a list of chain elements. -/
def chainAll (lead : String) (a : Bool × String) (elems : List String) : Bool × String :=
  elems.foldl (chainStep lead) a

/-- The chain elements one `run` token contributes in the g2 generator: a
`comment X` token is only the backquoted commentary; otherwise an optional
trace comment (only when the token expanded as a macro and build-trace is
on) followed by the expanded words. -/
def g2RunTokenElems (macros : List (String × List String)) (build_trace_disable : Bool)
    (cmd : String) : List String :=
  if strStartsWith cmd "comment " then [" `# " ++ afterFirstSpace cmd ++ "`"]
  else
    (if mmHit macros cmd && !build_trace_disable then [" `# " ++ cmd ++ "`"] else []) ++
      (mmWords macros cmd).map (fun w => " " ++ w)

/-- The chain elements of a whole g2 `run` list. -/
def g2RunElems (macros : List (String × List String)) (build_trace_disable : Bool) :
    List String → List String
  | [] => []
  | cmd :: rest =>
    g2RunTokenElems macros build_trace_disable cmd ++ g2RunElems macros build_trace_disable rest

/-- The chain elements one `run` token contributes in the legacy generator:
the trace comment precedes every single-word (no space) token. -/
def legacyRunTokenElems (macros : List (String × List String)) (build_trace_disable : Bool)
    (cmd : String) : List String :=
  if strStartsWith cmd "comment " then [" `# " ++ afterFirstSpace cmd ++ "`"]
  else
    (if !(cmd.data.contains ' ') && !build_trace_disable then [" `# " ++ cmd ++ "`"] else []) ++
      ( process_macro macros cmd).1.map (fun w => " " ++ w)

/-- The chain elements of a whole legacy `run` list. -/
def legacyRunElems (macros : List (String × List String)) (build_trace_disable : Bool) :
    List String → List String
  | [] => []
  | cmd :: rest =>
    legacyRunTokenElems macros build_trace_disable cmd ++
      legacyRunElems macros build_trace_disable rest

/-- Every stored variable value is a proper string with no `$` character (so
its substitution can never create or keep a `${NAME}` occurrence). -/
def DollarFreeEnv (envs : List (Option String × EnvironmentVariable)) : Prop :=
  ∀ e ∈ envs, ∃ v, e.2.value = some v ∧ '$' ∉ v.data

/-- The `substitute_env_variables_deep` never returns on `s`, whatever the
fuel. -/
def DivergesOn (envs : List (Option String × EnvironmentVariable)) (s : String) : Prop :=
  ∀ n, substDeepPy envs n s = none

/-- The `a`'s stored value contains the literal `${b}` reference (both names
bound in the mapping): the edges of the variable reference graph. -/
def refEdge (envs : List (Option String × EnvironmentVariable)) (a b : Option String) : Bool :=
  (envs.any (fun e =>
    e.1 == a &&
      match e.2.value with
      | some v => containsSub v ("$\x7b" ++ pyStrOfOpt b ++ "\x7d")
      | none => false)) &&
    envs.any (fun e => e.1 == b)

/-- The reference graph is acyclic: some ranking decreases along every
edge. -/
def AcyclicRefs (envs : List (Option String × EnvironmentVariable)) : Prop :=
  ∃ r : Option String → Nat, ∀ a b, refEdge envs a b = true → r b < r a

/-- A variable mapping whose reference graph is acyclic (`B` refers to `A`,
`A` refers to nothing — its value `"${"` contains no `${NAME}` occurrence)
but on which deep substitution still diverges: replacing `${A}` inside
`${A}B}` splices the tail `B}` onto the value `${` and recreates a
reference. -/
def spliceEnv : List (Option String × EnvironmentVariable) :=
  [(some "A", ⟨some "A", some "$\x7b", [], false⟩),
   (some "B", ⟨some "B", some "$\x7bA\x7dB\x7d", [], false⟩)]

/-- Two variables whose values mutually reference each other. -/
def cycEnv : List (Option String × EnvironmentVariable) :=
  [(some "A", ⟨some "A", some "$\x7bB\x7d", [], false⟩),
   (some "B", ⟨some "B", some "$\x7bA\x7d", [], false⟩)]

/-- Parameters of the C7 scenario: no macros, rpm, build trace on, trivial
filesystem oracles. -/
def p7 : GenParams := ⟨[], ⟨"rpm", false⟩, fun _ => none, fun _ => false, "/cfg", "c", 1⟩

example :
    genExpose { expose := ["8080/TCP", "53/UDP"] } emptyGenState =
      (true, "\nEXPOSE 8080 53/UDP",
        { emptyGenState with ports := [⟨"8080", "TCP"⟩, ⟨"53", "UDP"⟩] }) := by
  decide

example :
    substOncePy
      [(some "A", ⟨some "A", some "$\x7b", [], false⟩),
       (some "B", ⟨some "B", some "$\x7bA\x7dB\x7d", [], false⟩)]
      "$\x7bA\x7dB\x7d" = some (true, "$\x7bA\x7dB\x7d") := by
  decide

example :
    substOncePy
      [(some "A", ⟨some "A", some "$\x7bB\x7d", [], false⟩),
       (some "B", ⟨some "B", some "$\x7bA\x7d", [], false⟩)]
      "$\x7bA\x7d" = some (true, "$\x7bA\x7d") := by
  decide

example : portsHelpStr [⟨"8080", "TCP"⟩, ⟨"53", "UDP"⟩] = " -p 8080:8080/TCP -p 53:53/UDP" := by
  decide

example : genRunG2 [] false { run := ["ls"] } =
    (true, "\nRUN `# Execute commands` && set -x &&  ls") := by
  decide

example : legacyGenRun [] false ["ls"] =
    (true, "\nRUN `# Execute commands` && set -x `# ls` && \\\n\t ls") := by
  decide

example :
    composeSection
      ⟨[], ⟨"apt", false⟩, fun _ => none, fun _ => false, "/cfg", "c1", 1⟩
      { install := ["a"], run := ["echo hi"] } emptyGenState =
      some ("\nRUN `# Execute commands` && set -x &&  echo hi\n",
        { emptyGenState with errors := ["Unknown packager \x27apt\x27"] }) := by
  decide

example : match_macro [("pkgs", ["gcc", "make"])] "$pkgs" = (true, ["gcc", "make"], false) := by
  decide

example : match_macro [("pkgs", ["gcc"])] "$other" = (false, ["$other"], true) := by decide

example : match_macro [("a", ["x"])] "$a" = (true, ["x"], false) := by decide

example : process_macro [("a", ["x"])] "$a" = (["$a"], false) := by decide

example : process_macro [("ab", ["x"])] "$ab" = (["x"], false) := by decide

example : split_env_definition "NAME value" = ("NAME", "value") := by decide

example : split_env_definition "NAME" = ("NAME", "") := by decide

example : split_env_definition "\"a b\" \"c d\"" = ("a b", "c d") := by decide

example : split_file_paths "onlyone" = none := by decide

example : pySplit '/' "8080/TCP" = ["8080", "TCP"] := by decide

example : pyReplace "a${X}b" "$\x7bX\x7d" "v" = "avb" := by decide

theorem dollar_data (M : String) : ("$" ++ M).data = '$' :: M.data := by
  rw [String.data_append]; rfl

theorem strStartsWith_dollar (M : String) : strStartsWith ("$" ++ M) "$" = true := by
  simp [strStartsWith, dollar_data, List.isPrefixOf]

theorem strStartsWith_dollarBrace (M : String) :
    strStartsWith ("$" ++ M) "$\x7b" = strStartsWith M "\x7b" := by
  simp [strStartsWith, dollar_data, List.isPrefixOf]

theorem strDropN_dollar (M : String) : strDropN ("$" ++ M) 1 = M := by
  apply String.ext
  simp [strDropN, dollar_data]

theorem length_dollar (M : String) : ("$" ++ M).data.length = M.data.length + 1 := by
  simp [dollar_data]

theorem data_ne_nil_of_ne_empty {M : String} (h : M ≠ "") : M.data ≠ [] := by
  intro h0
  exact h (String.ext h0)

/-- Claim C1 (amended): for a macro name `M` bound to a *nonempty* list,
`match_macro` (g2) expands `"$" + M` to exactly the table's list, in order,
with no warning; the legacy `process_macro` does the same but only when the
token is longer than two characters (names of length ≥ 2); a token that does
not have the macro shape passes through unchanged without a warning in both
variants (for `process_macro` the shape additionally excludes tokens of
length ≤ 2, and otherwise means first character `$` and second not `{`); a
macro-shaped token whose name is unbound — or bound to the empty list, which
Python's `if macro:` treats as not found — passes through unchanged and
records the warning in both variants. -/
theorem c1_macro_expansion :
    (∀ macros M l, macroGet macros M = some l → l ≠ [] → M ≠ "" →
        strStartsWith M "\x7b" = false →
        match_macro macros ("$" ++ M) = (true, l, false)) ∧
    (∀ macros M l, macroGet macros M = some l → l ≠ [] → 2 ≤ M.data.length →
        strStartsWith M "\x7b" = false →
        process_macro macros ("$" ++ M) = (l, false)) ∧
    (∀ macros token, ( looks_like_macro token).1 = false →
        match_macro macros token = (false, [token], false)) ∧
    (∀ macros token, token.data.length ≤ 2 → process_macro macros token = ([token], false)) ∧
    (∀ macros M, M ≠ "" → strStartsWith M "\x7b" = false →
        (macroGet macros M = none ∨ macroGet macros M = some []) →
        match_macro macros ("$" ++ M) = (false, ["$" ++ M], true)) ∧
    (∀ macros M, 2 ≤ M.data.length → strStartsWith M "\x7b" = false →
        (macroGet macros M = none ∨ macroGet macros M = some []) →
        process_macro macros ("$" ++ M) = (["$" ++ M], true)) ∧
    (∀ (macros : List (String × List String)) (token : String) (c0 c1 : Char) (t : List Char),
        token.data = c0 :: c1 :: t → (c0 ≠ '$' ∨ c1 = '\x7b') →
        process_macro macros token = ([token], false)) := by
  refine ⟨?_, ?_, ?_, ?_, ?_, ?_, ?_⟩
  · intro macros M l h hl hM hbr
    have hlen : ¬M.length = 0 := by
      intro h0
      exact data_ne_nil_of_ne_empty hM (List.eq_nil_of_length_eq_zero h0)
    simp [ match_macro, looks_like_macro, strStartsWith_dollar, strStartsWith_dollarBrace,
      hbr, strDropN_dollar, h, hlen, List.isEmpty_iff, hl]
  · intro macros M l h hl hlen hbr
    obtain ⟨m0, t0, h0⟩ : ∃ m0 t0, M.data = m0 :: t0 := by
      cases hd : M.data with
      | nil => rw [hd] at hlen; simp at hlen
      | cons a t => exact ⟨a, t, rfl⟩
    obtain ⟨m1, t1, h1⟩ : ∃ m1 t1, t0 = m1 :: t1 := by
      cases hd : t0 with
      | nil => rw [hd] at h0; rw [h0] at hlen; simp at hlen
      | cons a t => exact ⟨a, t, rfl⟩
    have hdata : ("$" ++ M).data = '$' :: m0 :: m1 :: t1 := by
      rw [dollar_data, h0, h1]
    have hm0 : m0 ≠ '\x7b' := by
      intro he
      rw [strStartsWith, h0, he] at hbr
      simp [List.isPrefixOf] at hbr
    simp [ process_macro, hdata, hm0, strDropN_dollar, h, List.isEmpty_iff, hl]
  · intro macros token h
    simp [ match_macro, h]
  · intro macros token h
    match htd : token.data with
    | [] => simp [ process_macro, htd]
    | [a] => simp [ process_macro, htd]
    | [a, b] => simp [ process_macro, htd]
    | a :: b :: c :: rest => rw [htd] at h; simp at h
  · intro macros M hM hbr hget
    have hlen : ¬M.length = 0 := by
      intro h0
      exact data_ne_nil_of_ne_empty hM (List.eq_nil_of_length_eq_zero h0)
    rcases hget with h | h <;>
      simp [ match_macro, looks_like_macro, strStartsWith_dollar, strStartsWith_dollarBrace,
        hbr, strDropN_dollar, h, hlen]
  · intro macros M hlen hbr hget
    obtain ⟨m0, t0, h0⟩ : ∃ m0 t0, M.data = m0 :: t0 := by
      cases hd : M.data with
      | nil => rw [hd] at hlen; simp at hlen
      | cons a t => exact ⟨a, t, rfl⟩
    obtain ⟨m1, t1, h1⟩ : ∃ m1 t1, t0 = m1 :: t1 := by
      cases hd : t0 with
      | nil => rw [hd] at h0; rw [h0] at hlen; simp at hlen
      | cons a t => exact ⟨a, t, rfl⟩
    have hdata : ("$" ++ M).data = '$' :: m0 :: m1 :: t1 := by
      rw [dollar_data, h0, h1]
    have hm0 : m0 ≠ '\x7b' := by
      intro he
      rw [strStartsWith, h0, he] at hbr
      simp [List.isPrefixOf] at hbr
    rcases hget with h | h <;>
      simp [ process_macro, hdata, hm0, strDropN_dollar, h]
  · intro macros token c0 c1 t h hshape
    cases t with
    | nil => simp [ process_macro, h]
    | cons c2 t' =>
      have hcond : ¬(c0 = '$' ∧ c1 ≠ '\x7b') := by
        rcases hshape with h1 | h1
        · exact fun hc => h1 hc.1
        · exact fun hc => hc.2 h1
      simp [ process_macro, h, hcond]

/-- Claim C1 counterexample: `process_macro` does not expand the two-character
token `$a` although macro `a` is in the table, and both variants return a
macro-shaped token unchanged (with a warning) when its macro is bound to the
empty list instead of returning that (empty) list. -/
theorem c1_macro_expansion_cex :
    process_macro [("a", ["x", "y"])] "$a" = (["$a"], false) ∧
    macroGet [("a", ["x", "y"])] "a" = some ["x", "y"] ∧
    (["$a"] : List String) ≠ ["x", "y"] ∧
    match_macro [("e", [])] "$e" = (false, ["$e"], true) ∧
    macroGet [("e", [])] "e" = some ([] : List String) ∧
    (["$e"] : List String) ≠ [] := by
  decide

theorem c1_macro_expansion_witness :
    match_macro [("pkgs", ["gcc", "make"])] ("$" ++ "pkgs") = (true, ["gcc", "make"], false) ∧
    process_macro [("ab", ["x"])] ("$" ++ "ab") = (["x"], false) ∧
    match_macro [("pkgs", ["gcc"])] ("$" ++ "nope") = (false, ["$" ++ "nope"], true) ∧
    process_macro [] ("$" ++ "abc") = (["$" ++ "abc"], true) ∧
    process_macro [("x", ["y"])] "abc" = (["abc"], false) :=
  ⟨c1_macro_expansion.1 [("pkgs", ["gcc", "make"])] "pkgs" ["gcc", "make"]
      (by decide) (by decide) (by decide) (by decide),
   c1_macro_expansion.2.1 [("ab", ["x"])] "ab" ["x"] (by decide) (by decide) (by decide)
      (by decide),
   c1_macro_expansion.2.2.2.2.1 [("pkgs", ["gcc"])] "nope" (by decide) (by decide)
      (Or.inl (by decide)),
   c1_macro_expansion.2.2.2.2.2.1 [] "abc" (by decide) (by decide) (Or.inl (by decide)),
   c1_macro_expansion.2.2.2.2.2.2 [("x", ["y"])] "abc" 'a' 'b' ['c'] rfl
      (Or.inl (by decide))⟩

/-- Claim C4: the g2 header names the stage exactly when the stage has a
(truthy) name; the legacy `generate_header` instead always appends
`as <name>`, so the lone implicit stage (stage name `None`) yields
`FROM centos:centos7 as None`. -/
theorem c4_stage_header :
    (∀ base? name, pyTruthy name = true →
        g2GenerateHeader base? name =
          "\nFROM " ++ base?.getD "centos:centos7" ++ " as " ++ pyStrOfOpt name) ∧
    (∀ base?, g2GenerateHeader base? none = "\nFROM " ++ base?.getD "centos:centos7") ∧
    legacyGenerateHeader "/tmp/containers.yml" "centos:centos7" none =
      (true,
       "\n# Automatically generated from /tmp/containers.yml\nFROM centos:centos7 as None") := by
  refine ⟨?_, ?_, by decide⟩
  · intro base? name h
    simp [g2GenerateHeader, h]
  · intro base?
    simp [g2GenerateHeader, pyTruthy]

theorem c4_stage_header_witness :
    g2GenerateHeader (some "ubuntu:16.04") (some "final") = "\nFROM ubuntu:16.04 as final" ∧
    g2GenerateHeader (some "centos:centos7") none = "\nFROM centos:centos7" := by
  constructor
  · exact (c4_stage_header.1 (some "ubuntu:16.04") (some "final") (by decide)).trans (by decide)
  · exact (c4_stage_header.2.1 (some "centos:centos7")).trans (by decide)

theorem splitCh_ne_nil (sep : Char) (l : List Char) : splitCh sep l ≠ [] := by
  cases l with
  | nil => simp [splitCh]
  | cons c cs =>
    simp only [splitCh]
    cases h : splitCh sep cs with
    | nil => simp
    | cons w ws => by_cases hc : c = sep <;> simp [hc]

theorem splitCh_no_sep (sep : Char) (l : List Char) (h : sep ∉ l) : splitCh sep l = [l] := by
  induction l with
  | nil => rfl
  | cons c cs ih =>
    have hc : c ≠ sep := by rintro rfl; exact h (List.mem_cons_self _ _)
    have hcs : sep ∉ cs := fun hm => h (List.mem_cons_of_mem _ hm)
    simp [splitCh, ih hcs, hc]

theorem splitCh_append (sep : Char) (p q : List Char) (hp : sep ∉ p) :
    splitCh sep (p ++ sep :: q) = p :: splitCh sep q := by
  induction p with
  | nil =>
    simp only [List.nil_append, splitCh]
    cases h : splitCh sep q with
    | nil => exact absurd h (splitCh_ne_nil sep q)
    | cons w ws => simp
  | cons c cs ih =>
    have hc : c ≠ sep := by rintro rfl; exact hp (List.mem_cons_self _ _)
    have hcs : sep ∉ cs := fun hm => hp (List.mem_cons_of_mem _ hm)
    simp only [List.cons_append, splitCh, List.append_eq]
    rw [ih hcs]
    simp [hc]

theorem mk_data (s : String) : (⟨s.data⟩ : String) = s := rfl

theorem pySplit_pair (port proto : String) (hp : '/' ∉ port.data) (hq : '/' ∉ proto.data) :
    pySplit '/' (port ++ "/" ++ proto) = [port, proto] := by
  have hdata : (port ++ "/" ++ proto).data = port.data ++ '/' :: proto.data := by
    simp [String.data_append]
  rw [pySplit, hdata, splitCh_append _ _ _ hp, splitCh_no_sep _ _ hq]
  simp [mk_data]

/-- Claim C9: in the expose generator, the bare port is emitted exactly when
the protocol component equals the string `TCP` (case-sensitively); any other
protocol — including `tcp` — keeps the entry literal and is recorded with
its verbatim protocol string. -/
theorem c9_expose_case_sensitive :
    ∀ (port proto : String) (st : GenState), '/' ∉ port.data → '/' ∉ proto.data →
      genExpose { expose := [port ++ "/" ++ proto] } st =
        (true,
         "\nEXPOSE" ++ (if proto = "TCP" then " " ++ port else " " ++ (port ++ "/" ++ proto)),
         { st with ports := st.ports ++ [⟨port, proto⟩] }) := by
  intro port proto st hp hq
  simp [genExpose, pySplit_pair port proto hp hq]

theorem c9_expose_case_sensitive_witness :
    genExpose { expose := ["8080" ++ "/" ++ "tcp"] } emptyGenState =
      (true, "\nEXPOSE 8080/tcp", { emptyGenState with ports := [⟨"8080", "tcp"⟩] }) := by
  exact (c9_expose_case_sensitive "8080" "tcp" emptyGenState (by decide) (by decide)).trans
    (by decide)

set_option maxRecDepth 4000 in
/-- Claim C7: a section with `expose: ["8080/TCP", "53/UDP"]` composes to a
single `EXPOSE` directive with bare `8080` and literal `53/UDP`, records both
ports in the Accumulated State, and the rendered help commands contain
`-p 8080:8080/TCP -p 53:53/UDP`. -/
theorem c7_expose_end_to_end :
    composeSection p7 { expose := ["8080/TCP", "53/UDP"] } emptyGenState =
      some ("\nEXPOSE 8080 53/UDP\n",
        { emptyGenState with ports := [⟨"8080", "TCP"⟩, ⟨"53", "UDP"⟩] }) ∧
    portsHelpStr [⟨"8080", "TCP"⟩, ⟨"53", "UDP"⟩] = " -p 8080:8080/TCP -p 53:53/UDP" ∧
    containsSub
      (getUserHelpCommands "c" "/cfg/Dockerfile.c.g2" "/home/u"
        [⟨"8080", "TCP"⟩, ⟨"53", "UDP"⟩] [] [⟨none, []⟩])
      "-p 8080:8080/TCP -p 53:53/UDP" = true := by
  exact ⟨by decide, by decide, by decide⟩

theorem catWords_append (l1 l2 : List String) :
    catWords (l1 ++ l2) = catWords l1 ++ catWords l2 := by
  induction l1 with
  | nil => simp [catWords]
  | cons w ws ih => simp [catWords, ih, String.append_assoc]

theorem foldl_appendWord (l : List String) (init : String) :
    l.foldl (fun a w => a ++ " " ++ w) init = init ++ catWords l := by
  induction l generalizing init with
  | nil => simp [catWords]
  | cons w ws ih =>
    rw [List.foldl_cons, ih]
    simp [catWords, String.append_assoc]

theorem packagesFold_eq (macros : List (String × List String)) (tokens : List String)
    (init : String) :
    tokens.foldl
      (fun acc package =>
        let mm := match_macro macros package
        mm.2.1.foldl (fun a w => a ++ " " ++ w) acc)
      init = init ++ catWords (expandAll macros tokens) := by
  induction tokens generalizing init with
  | nil => simp [expandAll, catWords]
  | cons t ts ih =>
    simp only [List.foldl_cons]
    rw [foldl_appendWord, ih, expandAll, catWords_append, String.append_assoc]
    simp [mmWords]

theorem catWords_mem_split {w : String} {l : List String} (h : w ∈ l) :
    ∃ pre post, catWords l = pre ++ (" " ++ w) ++ post := by
  obtain ⟨l1, l2, rfl⟩ := List.append_of_mem h
  refine ⟨catWords l1, catWords l2, ?_⟩
  rw [catWords_append]
  simp [catWords, String.append_assoc]

theorem append_mid_split (A C pre mid post : String) :
    A ++ (pre ++ mid ++ post) ++ C = (A ++ pre) ++ mid ++ (post ++ C) := by
  simp [String.append_assoc]

/-- Claim C3: with a non-empty `install` list, `rpm` yields exactly one
combined `yum install` command holding every macro-expanded package and
ending in the cache cleanup; `deb` yields update plus one combined
`apt-get install` plus clean; any other packager yields `(False, "")`, one
recorded "Unknown packager" error, and the composer goes on running the
remaining generators (shown on a concrete section whose `run` directive is
still emitted). -/
theorem c3_packages :
    (∀ (P : GenParams) (sec : SectionCfg) (st : GenState),
        P.config.packager = "rpm" → sec.install ≠ [] →
        genPackages P sec st =
          (true,
           (if P.config.build_trace_disable then "\nRUN "
             else "\nRUN `# Install packages` && set -x && ") ++
             " \\\n\tyum -y -v install" ++ catWords (expandAll P.macros sec.install) ++
             " && \\\n\tyum clean all && yum -y clean packages",
           st) ∧
        (∀ w ∈ expandAll P.macros sec.install,
          ∃ pre post, (genPackages P sec st).2.1 = pre ++ (" " ++ w) ++ post)) ∧
    (∀ (P : GenParams) (sec : SectionCfg) (st : GenState),
        P.config.packager = "deb" → sec.install ≠ [] →
        genPackages P sec st =
          (true,
           (if P.config.build_trace_disable then "\nRUN "
             else "\nRUN `# Install packages` && set -x &&") ++
             " \\\n\tapt-get update && \\\n\tapt-get -y install" ++
             catWords (expandAll P.macros sec.install) ++ " && \\\n\tapt-get -y clean",
           st) ∧
        (∀ w ∈ expandAll P.macros sec.install,
          ∃ pre post, (genPackages P sec st).2.1 = pre ++ (" " ++ w) ++ post)) ∧
    (∀ (P : GenParams) (sec : SectionCfg) (st : GenState),
        P.config.packager ≠ "rpm" → P.config.packager ≠ "deb" →
        genPackages P sec st =
          (false, "",
           { st with
             errors := st.errors ++ ["Unknown packager \x27" ++ P.config.packager ++ "\x27"] })) ∧
    composeSection ⟨[], ⟨"apt", false⟩, fun _ => none, fun _ => false, "/cfg", "c1", 1⟩
        { install := ["a"], run := ["echo hi"] } emptyGenState =
      some ("\nRUN `# Execute commands` && set -x &&  echo hi\n",
        { emptyGenState with errors := ["Unknown packager \x27apt\x27"] }) := by
  refine ⟨?_, ?_, ?_, by decide⟩
  · intro P sec st hpk hin
    have hne : sec.install.isEmpty = false := by simp [List.isEmpty_iff, hin]
    have key :
        genPackages P sec st =
          (true,
           (if P.config.build_trace_disable then "\nRUN "
             else "\nRUN `# Install packages` && set -x && ") ++
             " \\\n\tyum -y -v install" ++ catWords (expandAll P.macros sec.install) ++
             " && \\\n\tyum clean all && yum -y clean packages",
           st) := by
      simp only [genPackages, hpk]
      rw [if_pos trivial]
      simp only [genPackagesRpm, hne, Bool.false_eq_true, if_false]
      rw [packagesFold_eq]
      simp [String.append_assoc]
    refine ⟨key, ?_⟩
    intro w hw
    obtain ⟨pre, post, hsplit⟩ := catWords_mem_split hw
    rw [key]
    dsimp only
    rw [hsplit]
    exact ⟨_, _, append_mid_split _ _ pre (" " ++ w) post⟩
  · intro P sec st hpk hin
    have hne : sec.install.isEmpty = false := by simp [List.isEmpty_iff, hin]
    have key :
        genPackages P sec st =
          (true,
           (if P.config.build_trace_disable then "\nRUN "
             else "\nRUN `# Install packages` && set -x &&") ++
             " \\\n\tapt-get update && \\\n\tapt-get -y install" ++
             catWords (expandAll P.macros sec.install) ++ " && \\\n\tapt-get -y clean",
           st) := by
      simp only [genPackages, hpk]
      rw [if_pos trivial]
      simp only [genPackagesDeb, hne, Bool.false_eq_true, if_false]
      rw [packagesFold_eq]
    refine ⟨key, ?_⟩
    intro w hw
    obtain ⟨pre, post, hsplit⟩ := catWords_mem_split hw
    rw [key]
    dsimp only
    rw [hsplit]
    exact ⟨_, _, append_mid_split _ _ pre (" " ++ w) post⟩
  · intro P sec st h1 h2
    simp only [genPackages]
    rw [if_neg h2, if_neg h1]

theorem c3_packages_witness :
    genPackages
        ⟨[("pkgs", ["gcc", "make"])], ⟨"rpm", true⟩, fun _ => none, fun _ => false, "", "c", 1⟩
        { install := ["$pkgs", "rpm-build"] } emptyGenState =
      (true,
       "\nRUN  \\\n\tyum -y -v install gcc make rpm-build && \\\n\tyum clean all && yum -y clean packages",
       emptyGenState) ∧
    genPackages
        ⟨[], ⟨"xyz", false⟩, fun _ => none, fun _ => false, "", "c", 1⟩
        { install := ["a"] } emptyGenState =
      (false, "", { emptyGenState with errors := ["Unknown packager \x27xyz\x27"] }) := by
  constructor
  · exact ((c3_packages.1 _ _ emptyGenState rfl (by decide)).1).trans (by decide)
  · exact (c3_packages.2.2.1 _ _ emptyGenState (by decide) (by decide)).trans (by decide)

theorem eq_of_bne_false {s t : String} (h : (s != t) = false) : s = t := by
  by_contra hne
  rw [bne_iff_ne.mpr hne] at h
  exact Bool.true_eq_false.mp h

theorem substOnceAux_false {envs : List (Option String × EnvironmentVariable)} :
    ∀ {b : Bool} {s t : String}, substOnceAux envs b s = some (false, t) → b = false ∧ t = s := by
  induction envs with
  | nil =>
    intro b s t h
    simp [substOnceAux] at h
    exact ⟨h.1, h.2.symm⟩
  | cons kv rest ih =>
    intro b s t h
    simp only [substOnceAux] at h
    cases hv : kv.2.value with
    | none => rw [hv] at h; simp at h
    | some v =>
      rw [hv] at h
      obtain ⟨h1, h2⟩ := ih h
      have hb : b = false := by cases b <;> simp_all
      have hne : (s != pyReplace s ("$\x7b" ++ pyStrOfOpt kv.1 ++ "\x7d") v) = false := by
        cases hx : (s != pyReplace s ("$\x7b" ++ pyStrOfOpt kv.1 ++ "\x7d") v) <;> simp_all
      exact ⟨hb, by rw [h2, ← eq_of_bne_false hne]⟩

theorem substDeepPy_last {envs : List (Option String × EnvironmentVariable)} :
    ∀ {n : Nat} {s t : String}, substDeepPy envs n s = some t →
      substOncePy envs t = some (false, t) := by
  intro n
  induction n with
  | zero => intro s t h; simp [substDeepPy] at h
  | succ n ih =>
    intro s t h
    simp only [substDeepPy] at h
    cases ho : substOncePy envs s with
    | none => rw [ho] at h; simp at h
    | some bs =>
      rw [ho] at h
      obtain ⟨b, s'⟩ := bs
      cases b with
      | true => simp at h; exact ih h
      | false =>
        simp at h
        obtain ⟨_, hs⟩ :=
          substOnceAux_false (show substOnceAux envs false s = some (false, s') from ho)
        rw [← h, hs]
        rw [hs] at ho
        exact ho

/-- Claim C5: whenever `substitute_env_variables_deep` terminates (any fuel
returning a result), its output is a fixed point — a further pass performs no
replacement, and re-applying the deep substitution (any positive fuel)
returns the output unchanged. -/
theorem c5_deep_substitution_idempotent :
    ∀ (envs : List (Option String × EnvironmentVariable)) (n : Nat) (s t : String),
      substDeepPy envs n s = some t →
      substOncePy envs t = some (false, t) ∧
        ∀ m, substDeepPy envs (m + 1) t = some t := by
  intro envs n s t h
  have hone := substDeepPy_last h
  exact ⟨hone, fun m => by simp [substDeepPy, hone]⟩

theorem c5_deep_substitution_idempotent_witness :
    substOncePy [(some "X", ⟨some "X", some "v", [], false⟩)] "avb" = some (false, "avb") ∧
    substDeepPy [(some "X", ⟨some "X", some "v", [], false⟩)] 1 "avb" = some "avb" := by
  have h :=
    c5_deep_substitution_idempotent [(some "X", ⟨some "X", some "v", [], false⟩)] 2
      "a$\x7bX\x7db" "avb" (by decide)
  exact ⟨h.1, h.2 0⟩

theorem replFuel_count_le (pat rep : List Char) (hr : '$' ∉ rep) :
    ∀ (n : Nat) (s : List Char), (pyReplaceFuel pat rep n s).count '$' ≤ s.count '$' := by
  intro n
  induction n with
  | zero => intro s; cases s <;> simp [pyReplaceFuel]
  | succ n ih =>
    intro s
    cases s with
    | nil => simp [pyReplaceFuel]
    | cons c cs =>
      simp only [pyReplaceFuel]
      by_cases h : pat ≠ [] ∧ pat.isPrefixOf (c :: cs)
      · rw [if_pos h, List.count_append, List.count_eq_zero.mpr hr]
        have h2 := ih (List.drop (pat.length - 1) cs)
        have h3 : (List.drop (pat.length - 1) cs).count '$' ≤ cs.count '$' :=
          (List.drop_sublist _ _).count_le _
        have h4 : cs.count '$' ≤ (c :: cs).count '$' := by
          rw [List.count_cons]; omega
        omega
      · rw [if_neg h, List.count_cons, List.count_cons]
        have := ih cs
        omega

theorem replFuel_count_lt (pat rep : List Char) (hp : '$' ∈ pat) (hr : '$' ∉ rep) :
    ∀ (n : Nat) (s : List Char),
      pyReplaceFuel pat rep n s = s ∨ (pyReplaceFuel pat rep n s).count '$' < s.count '$' := by
  intro n
  induction n with
  | zero => intro s; cases s <;> simp [pyReplaceFuel]
  | succ n ih =>
    intro s
    cases s with
    | nil => simp [pyReplaceFuel]
    | cons c cs =>
      simp only [pyReplaceFuel]
      by_cases h : pat ≠ [] ∧ pat.isPrefixOf (c :: cs)
      · rw [if_pos h]
        right
        obtain ⟨rest, hrest⟩ := List.isPrefixOf_iff_prefix.mp h.2
        obtain ⟨p0, pat', hpat'⟩ : ∃ p0 pat', pat = p0 :: pat' := by
          cases hp' : pat with
          | nil => exact absurd hp' h.1
          | cons a t => exact ⟨a, t, rfl⟩
        rw [hpat'] at hrest
        simp only [List.cons_append, List.cons.injEq] at hrest
        obtain ⟨hp0, hcs⟩ := hrest
        have hdrop : List.drop (pat.length - 1) cs = rest := by
          rw [hpat', ← hcs]
          simp [List.drop_left]
        have hpatc : 1 ≤ pat.count '$' := by
          have h0 : pat.count '$' ≠ 0 := fun hz => (List.count_eq_zero.mp hz) hp
          omega
        have hcnt : (c :: cs).count '$' = pat.count '$' + rest.count '$' := by
          have : c :: cs = pat ++ rest := by rw [hpat', List.cons_append, hp0, hcs]
          rw [this, List.count_append]
        rw [List.count_append, List.count_eq_zero.mpr hr, hdrop]
        have h2 := replFuel_count_le pat rep hr n rest
        omega
      · rw [if_neg h]
        rcases ih cs with h1 | h1
        · left; rw [h1]
        · right
          rw [List.count_cons, List.count_cons]
          omega

theorem pyReplace_count {s pat rep : String} (hp : '$' ∈ pat.data) (hr : '$' ∉ rep.data) :
    pyReplace s pat rep = s ∨ (pyReplace s pat rep).data.count '$' < s.data.count '$' := by
  rcases replFuel_count_lt pat.data rep.data hp hr s.data.length s.data with h | h
  · left
    show (⟨pyReplaceFuel pat.data rep.data s.data.length s.data⟩ : String) = s
    rw [h]
  · right
    exact h

theorem pattern_has_dollar (k : Option String) :
    '$' ∈ ("$\x7b" ++ pyStrOfOpt k ++ "\x7d").data := by
  rw [String.data_append, String.data_append]
  exact List.mem_append_left _ (List.mem_append_left _ (by decide))

theorem substOnceAux_count {envs : List (Option String × EnvironmentVariable)}
    (hw : DollarFreeEnv envs) :
    ∀ (b : Bool) (s : String),
      ∃ bs, substOnceAux envs b s = some bs ∧
        bs.2.data.count '$' ≤ s.data.count '$' ∧
        (bs.1 = true → b = true ∨ bs.2.data.count '$' < s.data.count '$') := by
  induction envs with
  | nil =>
    intro b s
    exact ⟨(b, s), rfl, le_refl _, fun h => Or.inl h⟩
  | cons kv rest ih =>
    intro b s
    obtain ⟨v, hv, hvd⟩ := hw kv (List.mem_cons_self _ _)
    have hw' : DollarFreeEnv rest := fun e he => hw e (List.mem_cons_of_mem _ he)
    have hrepl :=
      @pyReplace_count s ("$\x7b" ++ pyStrOfOpt kv.1 ++ "\x7d") v (pattern_has_dollar kv.1) hvd
    obtain ⟨bs, h1, h2, h3⟩ :=
      ih hw' (b || (s != pyReplace s ("$\x7b" ++ pyStrOfOpt kv.1 ++ "\x7d") v))
        (pyReplace s ("$\x7b" ++ pyStrOfOpt kv.1 ++ "\x7d") v)
    refine ⟨bs, ?_, ?_, ?_⟩
    · simp only [substOnceAux, hv]
      exact h1
    · rcases hrepl with heq | hlt
      · rw [heq] at h2; exact h2
      · exact le_trans h2 (le_of_lt hlt)
    · intro hbs
      rcases h3 hbs with hb1 | hlt2
      · cases hb : b with
        | true => exact Or.inl rfl
        | false =>
          right
          rw [hb] at hb1
          simp only [Bool.false_or] at hb1
          have hne := bne_iff_ne.mp hb1
          rcases hrepl with heq | hlt
          · exact absurd heq.symm hne
          · exact lt_of_le_of_lt h2 hlt
      · right
        rcases hrepl with heq | hlt
        · rw [heq] at hlt2; exact hlt2
        · exact lt_trans hlt2 hlt

theorem substDeep_terminates_aux (envs : List (Option String × EnvironmentVariable))
    (hw : DollarFreeEnv envs) :
    ∀ (c : Nat) (s : String), s.data.count '$' ≤ c →
      ∃ t, substDeepPy envs (c + 1) s = some t := by
  intro c
  induction c with
  | zero =>
    intro s hs
    obtain ⟨⟨b, s'⟩, h1, h2, h3⟩ := substOnceAux_count hw false s
    dsimp only at h2 h3
    cases b with
    | true =>
      rcases h3 rfl with hF | hlt
      · simp at hF
      · omega
    | false =>
      refine ⟨s', ?_⟩
      simp only [substDeepPy, substOncePy] at h1 ⊢
      rw [h1]
      simp
  | succ c ih =>
    intro s hs
    obtain ⟨⟨b, s'⟩, h1, h2, h3⟩ := substOnceAux_count hw false s
    dsimp only at h2 h3
    cases b with
    | true =>
      rcases h3 rfl with hF | hlt
      · simp at hF
      · have hle : s'.data.count '$' ≤ c := by omega
        obtain ⟨t, ht⟩ := ih s' hle
        refine ⟨t, ?_⟩
        simp only [substDeepPy, substOncePy] at h1 ht ⊢
        rw [h1]
        simpa using ht
    | false =>
      refine ⟨s', ?_⟩
      simp only [substDeepPy, substOncePy] at h1 ⊢
      rw [h1]
      simp

theorem diverge_of_fixpoint {envs : List (Option String × EnvironmentVariable)} {s : String}
    (h : substOncePy envs s = some (true, s)) : DivergesOn envs s := by
  intro n
  induction n with
  | zero => rfl
  | succ n ih =>
    simp only [substDeepPy, h]
    simpa using ih

/-- Claim C6 counterexample: a variable mapping whose `${NAME}` reference
graph is acyclic (the only edge is `B → A`; `A`'s value `"${"` holds no
reference at all) on which `substitute_env_variables_deep` still never
returns: substituting `${A}` inside the input `${A}B}` splices `${` onto the
trailing `B}`, recreating `${B}`, whose value restores the input. -/
theorem c6_termination_cex :
    AcyclicRefs spliceEnv ∧ DivergesOn spliceEnv "$\x7bA\x7dB\x7d" := by
  constructor
  · refine ⟨fun k => if k = some "B" then 1 else 0, ?_⟩
    intro a b h
    simp only [refEdge, Bool.and_eq_true, List.any_eq_true] at h
    obtain ⟨⟨e1, he1, hc1⟩, e2, he2, hb2⟩ := h
    simp only [spliceEnv, List.mem_cons, List.not_mem_nil, or_false] at he1 he2
    rcases he2 with rfl | rfl <;> obtain rfl := beq_iff_eq.mp hb2 <;>
        rcases he1 with rfl | rfl <;>
      · obtain ⟨ha, hcont⟩ := hc1
        obtain rfl := beq_iff_eq.mp ha
        revert hcont
        decide
  · exact diverge_of_fixpoint (by decide)

/-- Claim C6 (amended): deep substitution terminates whenever no stored
variable value contains a `$` character (each changing pass then strictly
lowers the number of `$` characters, so `count + 1` passes suffice); mere
acyclicity of the reference graph is not enough (see the counterexample);
and on two variables whose values mutually contain each other's `${NAME}`
reference — the edges `A → B` and `B → A` both present — it diverges. -/
theorem c6_termination_amended :
    (∀ (envs : List (Option String × EnvironmentVariable)) (s : String),
        DollarFreeEnv envs → ∃ t, substDeepPy envs (s.data.count '$' + 1) s = some t) ∧
    refEdge cycEnv (some "A") (some "B") = true ∧
    refEdge cycEnv (some "B") (some "A") = true ∧
    DivergesOn cycEnv "$\x7bA\x7d" := by
  refine ⟨?_, by decide, by decide, diverge_of_fixpoint (by decide)⟩
  intro envs s hw
  exact substDeep_terminates_aux envs hw _ s (le_refl _)

theorem c6_termination_amended_witness :
    ∃ t,
      substDeepPy [(some "X", ⟨some "X", some "v", [], false⟩)]
        (("a$\x7bX\x7db").data.count '$' + 1) "a$\x7bX\x7db" = some t :=
  c6_termination_amended.1 [(some "X", ⟨some "X", some "v", [], false⟩)] "a$\x7bX\x7db"
    (fun e he => by
      simp only [List.mem_singleton] at he
      subst he
      exact ⟨"v", rfl, by decide⟩)

theorem chainAll_append (lead : String) (a : Bool × String) (l1 l2 : List String) :
    chainAll lead a (l1 ++ l2) = chainAll lead (chainAll lead a l1) l2 :=
  List.foldl_append _ _ _ _

theorem chainAll_map_word (lead : String) (a : Bool × String) (ws : List String) :
    chainAll lead a (ws.map (fun w => " " ++ w)) =
      ws.foldl (fun a2 w => chainStep lead a2 (" " ++ w)) a := by
  simp [chainAll, List.foldl_map]

theorem strStartsWith_self_append (p s : String) : strStartsWith (p ++ s) p = true := by
  simp only [strStartsWith, String.data_append, List.isPrefixOf_iff_prefix]
  exact List.prefix_append _ _

theorem afterFirstSpace_comment (X : String) : afterFirstSpace ("comment " ++ X) = X := by
  apply String.ext
  show (("comment " ++ X).data.dropWhile (fun c => !(c == ' '))).drop 1 = X.data
  rw [String.data_append]
  show ((('c' :: 'o' :: 'm' :: 'm' :: 'e' :: 'n' :: 't' :: ' ' :: []) ++ X.data).dropWhile
    (fun c => !(c == ' '))).drop 1 = X.data
  simp +decide [List.dropWhile_cons]

theorem g2RunBody_eq (macros : List (String × List String)) (td : Bool) (a : Bool × String)
    (cmd : String) :
    (if strStartsWith cmd "comment " then
        chainStep " && \\\n\t" a (" `# " ++ afterFirstSpace cmd ++ "`")
      else
        let mm := match_macro macros cmd
        let a1 :=
          if mm.1 && !td then chainStep " && \\\n\t" a (" `# " ++ cmd ++ "`")
          else a
        mm.2.1.foldl (fun a2 w => chainStep " && \\\n\t" a2 (" " ++ w)) a1) =
      chainAll " && \\\n\t" a (g2RunTokenElems macros td cmd) := by
  by_cases hc : strStartsWith cmd "comment "
  · simp [hc, g2RunTokenElems, chainAll]
  · simp only [hc, g2RunTokenElems, Bool.false_eq_true, if_false, mmHit, mmWords]
    rw [chainAll_append, chainAll_map_word]
    congr 1
    split <;> simp [chainAll]

theorem g2RunFold_eq (macros : List (String × List String)) (td : Bool) :
    ∀ (cmds : List String) (a : Bool × String),
      cmds.foldl
        (fun (a : Bool × String) cmd =>
          if strStartsWith cmd "comment " then
            chainStep " && \\\n\t" a (" `# " ++ afterFirstSpace cmd ++ "`")
          else
            let mm := match_macro macros cmd
            let a1 :=
              if mm.1 && !td then chainStep " && \\\n\t" a (" `# " ++ cmd ++ "`")
              else a
            mm.2.1.foldl (fun a2 w => chainStep " && \\\n\t" a2 (" " ++ w)) a1)
        a =
      chainAll " && \\\n\t" a (g2RunElems macros td cmds) := by
  intro cmds
  induction cmds with
  | nil => intro a; simp [g2RunElems, chainAll]
  | cons cmd rest ih =>
    intro a
    rw [List.foldl_cons, ih, g2RunElems, chainAll_append, g2RunBody_eq]

theorem legacyRunBody_eq (macros : List (String × List String)) (td : Bool) (a : Bool × String)
    (cmd : String) :
    (if strStartsWith cmd "comment " then
        chainStep " && \\\n\t" a (" `# " ++ afterFirstSpace cmd ++ "`")
      else
        let a1 :=
          if !(cmd.data.contains ' ') && !td then
            chainStep " && \\\n\t" a (" `# " ++ cmd ++ "`")
          else a
        ( process_macro macros cmd).1.foldl (fun a2 w => chainStep " && \\\n\t" a2 (" " ++ w)) a1) =
      chainAll " && \\\n\t" a (legacyRunTokenElems macros td cmd) := by
  by_cases hc : strStartsWith cmd "comment "
  · simp [hc, legacyRunTokenElems, chainAll]
  · simp only [hc, legacyRunTokenElems, Bool.false_eq_true, if_false]
    rw [chainAll_append, chainAll_map_word]
    congr 1
    split <;> simp [chainAll]

theorem legacyRunFold_eq (macros : List (String × List String)) (td : Bool) :
    ∀ (cmds : List String) (a : Bool × String),
      cmds.foldl
        (fun (a : Bool × String) cmd =>
          if strStartsWith cmd "comment " then
            chainStep " && \\\n\t" a (" `# " ++ afterFirstSpace cmd ++ "`")
          else
            let a1 :=
              if !(cmd.data.contains ' ') && !td then
                chainStep " && \\\n\t" a (" `# " ++ cmd ++ "`")
              else a
            ( process_macro macros cmd).1.foldl
              (fun a2 w => chainStep " && \\\n\t" a2 (" " ++ w)) a1)
        a =
      chainAll " && \\\n\t" a (legacyRunElems macros td cmds) := by
  intro cmds
  induction cmds with
  | nil => intro a; simp [legacyRunElems, chainAll]
  | cons cmd rest ih =>
    intro a
    rw [List.foldl_cons, ih, legacyRunElems, chainAll_append, legacyRunBody_eq]

/-- Claim C8 (amended): in both generators a `comment X` token contributes
exactly the backquoted build-trace commentary `` `# X` `` and never an
executed command; with build-trace enabled, the g2 generator additionally
precedes exactly the tokens that *successfully expand as macros* with an
echoed trace comment before their expansion (an ordinary single-word command
gets none), while the legacy generator traces every single-word token; and
each generator's output is its header followed by the `&&`-chained token
contributions in input order. -/
theorem c8_run_trace_comments :
    (∀ (macros : List (String × List String)) (td : Bool) (X : String),
        g2RunTokenElems macros td ("comment " ++ X) = [" `# " ++ X ++ "`"]) ∧
    (∀ (macros : List (String × List String)) (td : Bool) (X : String),
        legacyRunTokenElems macros td ("comment " ++ X) = [" `# " ++ X ++ "`"]) ∧
    (∀ (macros : List (String × List String)) (cmd : String),
        strStartsWith cmd "comment " = false → mmHit macros cmd = true →
        g2RunTokenElems macros false cmd =
          (" `# " ++ cmd ++ "`") :: (mmWords macros cmd).map (fun w => " " ++ w)) ∧
    (∀ (macros : List (String × List String)) (cmd : String),
        strStartsWith cmd "comment " = false → cmd.data.contains ' ' = false →
        legacyRunTokenElems macros false cmd =
          (" `# " ++ cmd ++ "`") :: ( process_macro macros cmd).1.map (fun w => " " ++ w)) ∧
    (∀ (macros : List (String × List String)) (td : Bool) (sec : SectionCfg),
        sec.run ≠ [] →
        genRunG2 macros td sec =
          (true,
           (chainAll " && \\\n\t"
             (true, if td then "\nRUN " else "\nRUN `# Execute commands` && set -x && ")
             (g2RunElems macros td sec.run)).2)) ∧
    (∀ (macros : List (String × List String)) (td : Bool) (cmds : List String),
        cmds ≠ [] →
        legacyGenRun macros td cmds =
          (true,
           (chainAll " && \\\n\t"
             (true, if td then "\nRUN " else "\nRUN `# Execute commands` && set -x")
             (legacyRunElems macros td cmds)).2)) := by
  refine ⟨?_, ?_, ?_, ?_, ?_, ?_⟩
  · intro macros td X
    simp [g2RunTokenElems, strStartsWith_self_append, afterFirstSpace_comment]
  · intro macros td X
    simp [legacyRunTokenElems, strStartsWith_self_append, afterFirstSpace_comment]
  · intro macros cmd hc hm
    simp [g2RunTokenElems, hc, hm]
  · intro macros cmd hc hs
    have hs' : ' ' ∉ cmd.data := by simpa using hs
    simp [legacyRunTokenElems, hc, hs']
  · intro macros td sec hrun
    have hne : sec.run.isEmpty = false := by simp [List.isEmpty_iff, hrun]
    simp only [genRunG2, hne, Bool.false_eq_true, if_false]
    rw [g2RunFold_eq]
  · intro macros td cmds hrun
    have hne : cmds.isEmpty = false := by simp [List.isEmpty_iff, hrun]
    simp only [legacyGenRun, hne, Bool.false_eq_true, if_false]
    rw [legacyRunFold_eq]

/-- Claim C8 counterexample: with build-trace enabled, the g2 run generator
emits the plain single-word command `ls` with *no* preceding `` `# ls` ``
trace comment (only macro hits are traced); the legacy generator does trace
it. -/
theorem c8_run_trace_comments_cex :
    genRunG2 [] false { run := ["ls"] } =
      (true, "\nRUN `# Execute commands` && set -x &&  ls") ∧
    containsSub "\nRUN `# Execute commands` && set -x &&  ls" "`# ls`" = false ∧
    legacyGenRun [] false ["ls"] =
      (true, "\nRUN `# Execute commands` && set -x `# ls` && \\\n\t ls") := by
  exact ⟨by decide, by decide, by decide⟩

theorem c8_run_trace_comments_witness :
    g2RunTokenElems [] false ("comment " ++ "do nothing") = [" `# " ++ "do nothing" ++ "`"] ∧
    g2RunTokenElems [("m", ["x", "y"])] false "$m" =
      (" `# " ++ "$m" ++ "`") :: (mmWords [("m", ["x", "y"])] "$m").map (fun w => " " ++ w) ∧
    legacyRunTokenElems [] false "ls" =
      (" `# " ++ "ls" ++ "`") :: ( process_macro [] "ls").1.map (fun w => " " ++ w) :=
  ⟨c8_run_trace_comments.1 [] false "do nothing",
   c8_run_trace_comments.2.2.1 [("m", ["x", "y"])] "$m" (by decide) (by decide),
   c8_run_trace_comments.2.2.2.1 [] "ls" (by decide) (by decide)⟩

theorem nil_append_str (s : String) : "" ++ s = s := by
  apply String.ext
  simp [String.data_append]

theorem filter_kind_subsingleton {fs : List SectionField}
    (hn : (fs.map SectionField.kind).Nodup) (k : Nat) :
    (fs.filter (fun f => f.kind == k)).length ≤ 1 := by
  match h1 : fs.filter (fun f => f.kind == k) with
  | [] => simp [h1]
  | [a] => simp [h1]
  | a :: b :: t =>
    exfalso
    have hsub := @List.filter_sublist SectionField (fun f => f.kind == k) fs
    rw [h1] at hsub
    have hnd := List.Nodup.sublist (hsub.map SectionField.kind) hn
    have ha : a ∈ fs.filter (fun f => f.kind == k) := by
      rw [h1]; exact List.mem_cons_self _ _
    have hb : b ∈ fs.filter (fun f => f.kind == k) := by
      rw [h1]; exact List.mem_cons_of_mem _ (List.mem_cons_self _ _)
    have hak : a.kind = k := by
      have := (List.mem_filter.mp ha).2
      simpa using this
    have hbk : b.kind = k := by
      have := (List.mem_filter.mp hb).2
      simpa using this
    simp only [List.map_cons, List.nodup_cons, List.mem_cons] at hnd
    exact hnd.1 (Or.inl (hak.trans hbk.symm))

theorem filter_kind_perm_eq {fs1 fs2 : List SectionField} (hp : fs1.Perm fs2)
    (hn : (fs1.map SectionField.kind).Nodup) (k : Nat) :
    fs1.filter (fun f => f.kind == k) = fs2.filter (fun f => f.kind == k) := by
  have hpf := hp.filter (fun f => f.kind == k)
  have h1 := filter_kind_subsingleton hn k
  cases hA : fs1.filter (fun f => f.kind == k) with
  | nil =>
    rw [hA] at hpf
    exact (hpf.symm.eq_nil).symm
  | cons a t =>
    have ht : t = [] := by
      rw [hA] at h1
      simp at h1
      exact h1
    subst ht
    rw [hA] at hpf
    exact (List.perm_singleton.mp hpf.symm).symm

theorem toSection_perm {fs1 fs2 : List SectionField} (hp : fs1.Perm fs2)
    (hn : (fs1.map SectionField.kind).Nodup) : toSection fs1 = toSection fs2 := by
  simp only [toSection, fvExpose, fvEnv, fvEnvExt, fvVolumes, fvCopy, fvCopyF, fvShells,
    fvInstall, fvFiles, fvRun]
  rw [filter_kind_perm_eq hp hn 0, filter_kind_perm_eq hp hn 1, filter_kind_perm_eq hp hn 2,
    filter_kind_perm_eq hp hn 3, filter_kind_perm_eq hp hn 4, filter_kind_perm_eq hp hn 5,
    filter_kind_perm_eq hp hn 6, filter_kind_perm_eq hp hn 7, filter_kind_perm_eq hp hn 8,
    filter_kind_perm_eq hp hn 9]

theorem runGensLoop_eq :
    ∀ (gs : List SectionGen) (sec : SectionCfg) (st : GenState) (acc : String),
      runGensLoop gs sec st acc =
        Option.map (fun p => (acc ++ renderPieces p.1, p.2)) (collectGens gs sec st) := by
  intro gs
  induction gs with
  | nil =>
    intro sec st acc
    simp [runGensLoop, collectGens, renderPieces]
  | cons g rest ih =>
    intro sec st acc
    simp only [runGensLoop, collectGens]
    cases hg : g sec st with
    | none => simp
    | some r =>
      obtain ⟨res, t, st'⟩ := r
      simp only
      rw [ih]
      cases hcol : collectGens rest sec st' with
      | none => simp
      | some p =>
        obtain ⟨rs, st''⟩ := p
        cases res <;>
          simp [renderPieces, String.append_assoc, nil_append_str]

/-- Claim C2: the Section Composer's output is invariant under any
reordering of the section's input fields (duplicate-free keys), and it is
exactly the fixed-order concatenation — over the generator list expose, env,
env_ext, volume, copy, copy_f, shell, packages, file, run — of each
produced generator's text followed by one separator, with non-producing
generators contributing neither text nor separator. -/
theorem c2_section_composer_order :
    (∀ (P : GenParams) (st : GenState) (fs1 fs2 : List SectionField),
        fs1.Perm fs2 → (fs1.map SectionField.kind).Nodup →
        composeSection P (toSection fs1) st = composeSection P (toSection fs2) st) ∧
    (∀ (P : GenParams) (sec : SectionCfg) (st : GenState),
        composeSection P sec st =
          Option.map (fun p => (renderPieces p.1, p.2))
            (collectGens (sectionGenerators P) sec st)) := by
  constructor
  · intro P st fs1 fs2 hp hn
    rw [toSection_perm hp hn]
  · intro P sec st
    rw [composeSection, runGensLoop_eq]
    cases collectGens (sectionGenerators P) sec st with
    | none => rfl
    | some p => simp [nil_append_str]

theorem c2_section_composer_order_witness :
    composeSection ⟨[], ⟨"rpm", false⟩, fun _ => none, fun _ => false, "/cfg", "c", 1⟩
        (toSection [SectionField.run ["echo hi"], SectionField.expose ["80"]]) emptyGenState =
      composeSection ⟨[], ⟨"rpm", false⟩, fun _ => none, fun _ => false, "/cfg", "c", 1⟩
        (toSection [SectionField.expose ["80"], SectionField.run ["echo hi"]]) emptyGenState :=
  c2_section_composer_order.1 _ emptyGenState _ _ (by decide) (by decide)

theorem firstSome_some {α : Type} {k : Nat → Option α} :
    ∀ {n : Nat} {r : α}, firstSome k n = some r → ∃ i, 1 ≤ i ∧ i ≤ n ∧ k i = some r := by
  intro n
  induction n with
  | zero => intro r h; simp [firstSome] at h
  | succ n ih =>
    intro r h
    simp only [firstSome] at h
    cases hk : k (n + 1) with
    | some r' =>
      rw [hk] at h
      exact ⟨n + 1, by omega, le_refl _, by rw [hk]; exact h⟩
    | none =>
      rw [hk] at h
      obtain ⟨i, h1, h2, h3⟩ := ih h
      exact ⟨i, h1, by omega, h3⟩

theorem plusGreedy_some {α : Type} {p : Char → Bool} {s : List Char}
    {k : List Char → List Char → Option α} {r : α} (h : plusGreedy p s k = some r) :
    ∃ i, 1 ≤ i ∧ i ≤ (s.takeWhile p).length ∧ k (s.take i) (s.drop i) = some r :=
  firstSome_some h

theorem plusGreedy_head {α : Type} {p : Char → Bool} {s : List Char}
    {k : List Char → List Char → Option α} {r : α} (h : plusGreedy p s k = some r) :
    ∃ c cs, s = c :: cs ∧ p c = true := by
  obtain ⟨i, h1, h2, _⟩ := plusGreedy_some h
  cases hs : s with
  | nil => rw [hs] at h2; simp [List.takeWhile] at h2; omega
  | cons c cs =>
    refine ⟨c, cs, rfl, ?_⟩
    by_contra hpc
    have hpc' : p c = false := by
      cases hx : p c with
      | true => exact absurd hx hpc
      | false => rfl
    rw [hs, List.takeWhile_cons, hpc'] at h2
    simp at h2
    omega

theorem plusGreedy_space_mem {α : Type} {s : List Char}
    {k : List Char → List Char → Option α} {r : α}
    (h : plusGreedy (fun c => c == ' ') s k = some r) : ' ' ∈ s := by
  obtain ⟨c, cs, rfl, hc⟩ := plusGreedy_head h
  have : c = ' ' := by simpa using hc
  rw [this]
  exact List.mem_cons_self _ _

theorem matchTwoTokens_space {s : List Char} {r : List Char × List Char}
    (h : matchTwoTokens s = some r) : ' ' ∈ s := by
  simp only [matchTwoTokens] at h
  obtain ⟨i, _, _, h3⟩ := plusGreedy_some h
  exact List.mem_of_mem_drop (plusGreedy_space_mem h3)

theorem matchQuotedPair_space {s : List Char} {r : List Char × List Char}
    (h : matchQuotedPair s = some r) : ' ' ∈ s := by
  cases s with
  | nil => simp [matchQuotedPair] at h
  | cons c t =>
    simp only [matchQuotedPair] at h
    split at h
    · rename_i t' heq
      injection heq with hc ht
      obtain ⟨i1, _, _, h3⟩ := plusGreedy_some h
      split at h3
      · rename_i u hu
        have hmem : ' ' ∈ u := plusGreedy_space_mem h3
        have h5 : ' ' ∈ List.drop i1 t' := by rw [hu]; exact List.mem_cons_of_mem _ hmem
        have h6 : ' ' ∈ t' := List.mem_of_mem_drop h5
        rw [ht]
        exact List.mem_cons_of_mem _ h6
      · simp at h3
    · simp at h

theorem split_env_no_space {s : String} (h : ' ' ∉ s.data) :
    split_env_definition s = (s, "") := by
  unfold split_env_definition
  cases h1 : matchQuotedPair s.data with
  | some r => exact absurd (matchQuotedPair_space h1) h
  | none =>
    cases h2 : matchTwoTokens s.data with
    | some r => exact absurd (matchTwoTokens_space h2) h
    | none => rfl

theorem match_macro_nil (t : String) : ( match_macro [] t).2.1 = [t] := by
  unfold match_macro
  simp only [macroGet]
  split <;> rfl

theorem pyReplace_self {p : String} (hp : p.data ≠ []) : pyReplace p p "" = "" := by
  apply String.ext
  show pyReplaceFuel p.data "".data p.data.length p.data = "".data
  cases hd : p.data with
  | nil => exact absurd hd hp
  | cons c cs =>
    have hpre : (c :: cs).isPrefixOf (c :: cs) = true :=
      List.isPrefixOf_iff_prefix.mpr (List.prefix_refl _)
    simp only [List.length_cons, pyReplaceFuel]
    rw [if_pos ⟨List.cons_ne_nil c cs, hpre⟩]
    simp [pyReplaceFuel, List.drop_length]

/-- Claim C10: an env entry with no space separator matches neither
`split_env_definition` pattern, so the generator still emits `ENV <entry>`
and records a variable named by the whole entry with the empty string as its
value; substituting `${entry}` with that variable then replaces the
occurrence by the empty string. -/
theorem c10_env_without_separator :
    ∀ (w : String) (st : GenState), ' ' ∉ w.data →
      split_env_definition w = (w, "") ∧
      genEnv [] { env := [w] } st =
        (true, "\nENV " ++ w,
         { st with envVars := assocSet (some w) ⟨some w, some "", [], false⟩ st.envVars }) ∧
      substOncePy [(some w, ⟨some w, some "", [], false⟩)] ("$\x7b" ++ w ++ "\x7d") =
        some (true, "") := by
  intro w st h
  have hsplit := split_env_no_space h
  refine ⟨hsplit, ?_, ?_⟩
  · simp [genEnv, match_macro_nil, hsplit, nil_append_str]
  · simp only [substOncePy, substOnceAux]
    have hne : ("$\x7b" ++ w ++ "\x7d").data ≠ [] := by
      simp [String.data_append]
    have hrepl :
        pyReplace ("$\x7b" ++ w ++ "\x7d") ("$\x7b" ++ pyStrOfOpt (some w) ++ "\x7d") "" = "" :=
      pyReplace_self hne
    rw [hrepl]
    have hbne : (("$\x7b" ++ w ++ "\x7d") != "") = true :=
      bne_iff_ne.mpr (fun he => hne (by rw [he]))
    simp [hbne]

theorem c10_env_without_separator_witness :
    split_env_definition "FOO" = ("FOO", "") ∧
    genEnv [] { env := ["FOO"] } emptyGenState =
      (true, "\nENV " ++ "FOO",
       { emptyGenState with
         envVars := assocSet (some "FOO") ⟨some "FOO", some "", [], false⟩
           emptyGenState.envVars }) ∧
    substOncePy [(some "FOO", ⟨some "FOO", some "", [], false⟩)] ("$\x7b" ++ "FOO" ++ "\x7d") =
      some (true, "") :=
  c10_env_without_separator "FOO" emptyGenState (by decide)

end DFGen
